import Mathlib

/-!
Verification of the product/task CRUD service in src/perfect-api.py.

The service keeps two in-memory Python dicts (products_db, tasks_db) keyed by
generated string identifiers.  A Python dict preserves insertion order,
overwriting an existing key keeps its position, and deleting removes the single
entry with that key; we embed it as an association list with exactly those
operations.  Prices (Python floats used only for comparisons) are embedded as
rationals, datetime timestamps as naturals, and the uuid4 identifier supply as
an abstract function from a draw counter to strings.  FastAPI validates the
request body against the pydantic model before a handler body runs, so each
endpoint is embedded as validation followed by the translated handler body.
-/

namespace PerfectApi

/-- The ProductCategory str-enum: electronics, clothing, food, books, other. -/
inductive ProductCategory where
  | electronics
  | clothing
  | food
  | books
  | other
  deriving DecidableEq, Repr

/-- The string value of a category, as in the Python str-enum. -/
def ProductCategory.value : ProductCategory → String
  | .electronics => "electronics"
  | .clothing => "clothing"
  | .food => "food"
  | .books => "books"
  | .other => "other"

/-- User-supplied product fields (pydantic ProductBase / ProductCreate). -/
structure ProductBase where
  name : String
  description : String
  price : ℚ
  category : ProductCategory
  in_stock : Bool
  tags : List String
  deriving DecidableEq, Repr

/-- A stored product record (pydantic Product): ProductBase plus the
system-generated id, created_at and updated_at fields. -/
structure Product extends ProductBase where
  id : String
  created_at : Nat
  updated_at : Nat
  deriving DecidableEq, Repr

/-- A raw product request body, before pydantic validation.  in_stock and tags
carry defaults (true, []) applied when the field is absent. -/
structure RawProduct where
  name : String
  description : String
  price : ℚ
  category : String
  in_stock : Option Bool
  tags : Option (List String)
  deriving DecidableEq, Repr

/-- User-supplied task fields (pydantic TaskCreate). -/
structure TaskCreate where
  title : String
  description : Option String
  deriving DecidableEq, Repr

/-- A stored task record (pydantic Task). -/
structure Task where
  id : String
  title : String
  description : Option String
  deriving DecidableEq, Repr

/-- A raw task request body, before pydantic validation. -/
structure RawTask where
  title : String
  description : Option String
  deriving DecidableEq, Repr

/-- Parse a category string into the enumeration, as pydantic coerces the
str-enum field. -/
def parseCategory : String → Option ProductCategory
  | "electronics" => some .electronics
  | "clothing" => some .clothing
  | "food" => some .food
  | "books" => some .books
  | "other" => some .other
  | _ => none

/-- Names of the ProductBase fields whose pydantic constraint the raw body
violates: name (min_length=1, max_length=100), price (gt=0), category (enum
membership).  Pydantic reports every violated field, not just the first. -/
def productErrors (raw : RawProduct) : List String :=
  (if raw.name.length < 1 || 100 < raw.name.length then ["name"] else []) ++
  (if raw.price ≤ 0 then ["price"] else []) ++
  (if (parseCategory raw.category).isNone then ["category"] else [])

/-- Pydantic validation of a product body: all field constraints hold, defaults
for in_stock (true) and tags ([]) are applied, and the result is a typed
ProductBase; otherwise the list of violated field names. -/
def validateProduct (raw : RawProduct) : Except (List String) ProductBase :=
  match parseCategory raw.category with
  | none => .error (productErrors raw)
  | some cat =>
    if productErrors raw = [] then
      .ok { name := raw.name, description := raw.description, price := raw.price,
            category := cat, in_stock := raw.in_stock.getD true, tags := raw.tags.getD [] }
    else
      .error (productErrors raw)

/-- Names of the TaskCreate fields the raw body violates: title
(min_length=1, max_length=100). -/
def taskErrors (raw : RawTask) : List String :=
  if raw.title.length < 1 || 100 < raw.title.length then ["title"] else []

/-- Pydantic validation of a task body. -/
def validateTask (raw : RawTask) : Except (List String) TaskCreate :=
  if taskErrors raw = [] then
    .ok { title := raw.title, description := raw.description }
  else
    .error (taskErrors raw)

/-- The two error kinds the service produces: an HTTPException whose detail is
the body \x7berror, code\x7d with HTTP status 404, and a FastAPI request
validation failure with HTTP status 422 listing the violated fields. -/
inductive ApiError where
  | notFound (error : String) (code : Nat)
  | validationError (details : List String)
  deriving DecidableEq, Repr

/-- The HTTP status code each error kind is transported with. -/
def ApiError.statusCode : ApiError → Nat
  | .notFound _ _ => 404
  | .validationError _ => 422

/-- In-memory product store: the Python dict products_db, embedded as an
insertion-ordered association list. -/
abbrev Store := List (String × Product)

/-- In-memory task store: the Python dict tasks_db. -/
abbrev TaskStore := List (String × Task)

/-- Python dict lookup d[k] / membership: the value at the first (unique)
matching key. -/
def dictGet {α : Type} : List (String × α) → String → Option α
  | [], _ => none
  | (k', v) :: rest, k => if k' = k then some v else dictGet rest k

/-- Python dict assignment d[k] = v: replace in place if the key is present,
append otherwise (insertion order preserved). -/
def dictSet {α : Type} : List (String × α) → String → α → List (String × α)
  | [], k, v => [(k, v)]
  | (k', v') :: rest, k, v =>
      if k' = k then (k, v) :: rest else (k', v') :: dictSet rest k v

/-- Python del d[k]: remove the (first, hence unique) entry with the key. -/
def dictDel {α : Type} : List (String × α) → String → List (String × α)
  | [], _ => []
  | (k', v') :: rest, k => if k' = k then rest else (k', v') :: dictDel rest k

/-- list(d.values()), in insertion order. -/
def dictValues {α : Type} : List (String × α) → List α
  | [] => []
  | (_, v) :: rest => v :: dictValues rest

/-- list(d.keys()), in insertion order. -/
def dictKeys {α : Type} : List (String × α) → List String
  | [] => []
  | (k, _) :: rest => k :: dictKeys rest

/-- Handler body of GET /products (get_products, after the four query
parameters were parsed): start from list(products_db.values()) and apply the
four optional filters in sequence.  The source guards the category filter with
truthiness (if category:), which coincides with an is-not-None test because
every enumeration value is a non-empty string. -/
def get_products (category : Option ProductCategory) (min_price : Option ℚ)
    (max_price : Option ℚ) (in_stock : Option Bool) (db : Store) : List Product :=
  let filtered := dictValues db
  let filtered := match category with
    | none => filtered
    | some c => filtered.filter fun p => decide (p.category = c)
  let filtered := match min_price with
    | none => filtered
    | some m => filtered.filter fun p => decide (m ≤ p.price)
  let filtered := match max_price with
    | none => filtered
    | some m => filtered.filter fun p => decide (p.price ≤ m)
  match in_stock with
  | none => filtered
  | some b => filtered.filter fun p => decide (p.in_stock = b)

/-- Handler body of GET /products/\x7bproduct_id\x7d (get_product): 404 with
detail \x7berror, code\x7d when the id is absent, the stored record
otherwise. -/
def get_product (product_id : String) (db : Store) : Except ApiError Product :=
  match dictGet db product_id with
  | none => .error (.notFound "Product not found" 404)
  | some p => .ok p

/-- Handler body of POST /products (create_product): takes the id drawn by
generate_product_id and the current time, builds the record with
created_at = updated_at = now, inserts it, and returns it with the new
store. -/
def create_product (product_id : String) (now : Nat) (product : ProductBase)
    (db : Store) : Product × Store :=
  let new_product : Product :=
    { toProductBase := product, id := product_id, created_at := now, updated_at := now }
  (new_product, dictSet db product_id new_product)

/-- Handler body of PUT /products/\x7bproduct_id\x7d (update_product): 404
when the id is absent; otherwise merge the validated body over the stored
record (id and created_at survive from the stored record, every ProductBase
field is taken from the body) and refresh updated_at. -/
def update_product (product_id : String) (now : Nat) (product_update : ProductBase)
    (db : Store) : Except ApiError Product × Store :=
  match dictGet db product_id with
  | none => (.error (.notFound "Product not found" 404), db)
  | some current_product =>
      let updated_product : Product :=
        { toProductBase := product_update, id := current_product.id,
          created_at := current_product.created_at, updated_at := now }
      (.ok updated_product, dictSet db product_id updated_product)

/-- Handler body of DELETE /products/\x7bproduct_id\x7d (delete_product): 404
when the id is absent, otherwise remove the record (204, empty body). -/
def delete_product (product_id : String) (db : Store) : Except ApiError Unit × Store :=
  match dictGet db product_id with
  | none => (.error (.notFound "Product not found" 404), db)
  | some _ => (.ok (), dictDel db product_id)

/-- Handler body of POST /tasks (create_task): takes the drawn id, inserts and
returns the new task. -/
def create_task (task_id : String) (task : TaskCreate) (db : TaskStore) :
    Task × TaskStore :=
  let new_task : Task := { id := task_id, title := task.title, description := task.description }
  (new_task, dictSet db task_id new_task)

/-- The POST /products endpoint: FastAPI validates the body before the handler
body runs, so validation failure returns 422 with the store untouched. -/
def post_product_endpoint (fresh_id : String) (now : Nat) (raw : RawProduct)
    (db : Store) : Except ApiError Product × Store :=
  match validateProduct raw with
  | .error errs => (.error (.validationError errs), db)
  | .ok product =>
      let r := create_product fresh_id now product db
      (.ok r.1, r.2)

/-- The PUT /products/\x7bproduct_id\x7d endpoint: body validation happens
before the handler, hence before the existence check. -/
def put_product_endpoint (product_id : String) (now : Nat) (raw : RawProduct)
    (db : Store) : Except ApiError Product × Store :=
  match validateProduct raw with
  | .error errs => (.error (.validationError errs), db)
  | .ok product_update => update_product product_id now product_update db

/-- The POST /tasks endpoint: body validation before the handler. -/
def post_task_endpoint (fresh_id : String) (raw : RawTask) (db : TaskStore) :
    Except ApiError Task × TaskStore :=
  match validateTask raw with
  | .error errs => (.error (.validationError errs), db)
  | .ok task =>
      let r := create_task fresh_id task db
      (.ok r.1, r.2)

/-- One incoming product request: create and update carry the raw body, every
request carries its arrival time (datetime.utcnow() at handling).  Delete has
no body; its time field is unused by the handler and only records arrival
order for clock-monotonicity statements. -/
inductive Op where
  | create (raw : RawProduct) (now : Nat)
  | update (id : String) (raw : RawProduct) (now : Nat)
  | delete (id : String) (now : Nat)
  deriving DecidableEq, Repr

/-- The arrival time of a request. -/
def Op.time : Op → Nat
  | .create _ now => now
  | .update _ _ now => now
  | .delete _ now => now

/-- Server state: the product store plus the number of identifier draws made
so far (uuid4 calls), so that the identifier supply can be an abstract
function of the draw index. -/
structure ServerState where
  db : Store
  nextId : Nat
  deriving Repr

/-- The empty server before any request. -/
def initState : ServerState := ⟨[], 0⟩

/-- Process one request against the state.  gen is the identifier supply
(generate_product_id): draw i yields gen i.  Validation failure leaves the
state untouched (FastAPI rejects before the handler runs, so no id is drawn
and nothing is written). -/
def step (gen : Nat → String) (s : ServerState) : Op → ServerState
  | .create raw now =>
    match validateProduct raw with
    | .error _ => s
    | .ok product =>
        ⟨(create_product (gen s.nextId) now product s.db).2, s.nextId + 1⟩
  | .update id raw now =>
    match validateProduct raw with
    | .error _ => s
    | .ok product_update => ⟨(update_product id now product_update s.db).2, s.nextId⟩
  | .delete id _ => ⟨(delete_product id s.db).2, s.nextId⟩

/-- Process a request sequence. -/
def run (gen : Nat → String) (s : ServerState) (ops : List Op) : ServerState :=
  ops.foldl (step gen) s

/-- The identifier a single request draws: a successful create draws one id,
every other request draws none. -/
def drawnNow (gen : Nat → String) (s : ServerState) : Op → List String
  | .create raw _ =>
    match validateProduct raw with
    | .error _ => []
    | .ok _ => [gen s.nextId]
  | _ => []

/-- All identifiers drawn while processing a request sequence, in order. -/
def drawnIds (gen : Nat → String) (s : ServerState) : List Op → List String
  | [] => []
  | op :: rest => drawnNow gen s op ++ drawnIds gen (step gen s op) rest

/-- The request times are nondecreasing, starting no earlier than t (the
wall clock does not run backwards across the sequence). -/
def monoFrom (t : Nat) : List Op → Bool
  | [] => true
  | op :: rest => decide (t ≤ op.time) && monoFrom op.time rest

/-- Every record in the store satisfies created_at ≤ updated_at. -/
def timesConsistent (db : Store) : Bool :=
  (dictValues db).all fun p => decide (p.created_at ≤ p.updated_at)

/-- A well-formed raw product body used for concrete witnesses. -/
def rawSample : RawProduct :=
  { name := "Widget", description := "d", price := 10,
    category := "books", in_stock := none, tags := none }

/-- A second well-formed raw body, used as an update payload in witnesses. -/
def rawSample2 : RawProduct :=
  { name := "Gadget", description := "e", price := 5,
    category := "electronics", in_stock := some false, tags := some ["x"] }

/-- A raw body violating the price constraint (price = 0 is not > 0). -/
def rawBadPrice : RawProduct :=
  { name := "Widget", description := "d", price := 0,
    category := "books", in_stock := none, tags := none }

/-- A raw task body violating the title length constraint. -/
def rawBadTask : RawTask := { title := "", description := none }

/-- The validated form of rawSample. -/
def pbSample : ProductBase :=
  { name := "Widget", description := "d", price := 10,
    category := .books, in_stock := true, tags := [] }

/-- An injective identifier supply used in witnesses: draw i is the string of
i+1 letters a, standing for a collision-free uuid4 stream. -/
def genSample (i : Nat) : String := String.mk (List.replicate (i + 1) 'a')

/-- A concrete monotone request sequence used in witnesses: create, then
update the created record (its id is genSample 0 = "a"), then create again. -/
def opsSample : List Op :=
  [.create rawSample 1, .update "a" rawSample2 3, .create rawSample 7]

/-- The validated form of rawSample2. -/
def pbSample2 : ProductBase :=
  { name := "Gadget", description := "e", price := 5,
    category := .electronics, in_stock := false, tags := ["x"] }

/-- A one-record store used in concrete witnesses. -/
def prodSample : Product :=
  { toProductBase := pbSample, id := "a", created_at := 1, updated_at := 1 }

/-- A store holding prodSample under its id. -/
def storeSample : Store := [("a", prodSample)]

/-- The conjunction of the four optional filter predicates of GET /products:
an absent filter constrains nothing; a present one demands category equality,
price ≥ min_price, price ≤ max_price, or in_stock equality respectively. -/
def matchesFilters (category : Option ProductCategory) (min_price : Option ℚ)
    (max_price : Option ℚ) (in_stock : Option Bool) (p : Product) : Bool :=
  (match category with | none => true | some c => decide (p.category = c)) &&
  (match min_price with | none => true | some m => decide (m ≤ p.price)) &&
  (match max_price with | none => true | some m => decide (p.price ≤ m)) &&
  (match in_stock with | none => true | some b => decide (p.in_stock = b))

/-! ## Store lemmas: the Python dict embedding -/

theorem dictGet_dictSet_self {α : Type} (db : List (String × α)) (k : String) (v : α) :
    dictGet (dictSet db k v) k = some v := by
  induction db with
  | nil => simp [dictSet, dictGet]
  | cons hd tl ih =>
    obtain ⟨k', v'⟩ := hd
    by_cases h : k' = k
    · simp [dictSet, dictGet, h]
    · simp [dictSet, dictGet, h, ih]

theorem dictGet_dictSet_ne {α : Type} (db : List (String × α)) (k k2 : String) (v : α)
    (h : k2 ≠ k) : dictGet (dictSet db k v) k2 = dictGet db k2 := by
  induction db with
  | nil => simp [dictSet, dictGet, Ne.symm h]
  | cons hd tl ih =>
    obtain ⟨k', v'⟩ := hd
    by_cases hk : k' = k
    · subst hk
      simp [dictSet, dictGet, Ne.symm h]
    · simp [dictSet, dictGet, hk, ih]

theorem dictGet_eq_none_iff {α : Type} (db : List (String × α)) (k : String) :
    dictGet db k = none ↔ k ∉ dictKeys db := by
  induction db with
  | nil => simp [dictGet, dictKeys]
  | cons hd tl ih =>
    obtain ⟨k', v'⟩ := hd
    by_cases h : k' = k
    · simp [dictGet, dictKeys, h]
    · simp [dictGet, dictKeys, h, ih, Ne.symm h]

theorem dictKeys_dictSet_absent {α : Type} (db : List (String × α)) (k : String) (v : α)
    (h : dictGet db k = none) : dictKeys (dictSet db k v) = dictKeys db ++ [k] := by
  induction db with
  | nil => simp [dictSet, dictKeys]
  | cons hd tl ih =>
    obtain ⟨k', v'⟩ := hd
    by_cases hk : k' = k
    · simp [dictGet, hk] at h
    · simp only [dictGet, if_neg hk] at h
      simp [dictSet, dictKeys, hk, ih h]

theorem dictKeys_dictSet_present {α : Type} (db : List (String × α)) (k : String) (v p : α)
    (h : dictGet db k = some p) : dictKeys (dictSet db k v) = dictKeys db := by
  induction db with
  | nil => simp [dictGet] at h
  | cons hd tl ih =>
    obtain ⟨k', v'⟩ := hd
    by_cases hk : k' = k
    · simp [dictSet, dictKeys, hk]
    · simp only [dictGet, if_neg hk] at h
      simp [dictSet, dictKeys, hk, ih h]

theorem dictValues_dictSet_absent {α : Type} (db : List (String × α)) (k : String) (v : α)
    (h : dictGet db k = none) : dictValues (dictSet db k v) = dictValues db ++ [v] := by
  induction db with
  | nil => simp [dictSet, dictValues]
  | cons hd tl ih =>
    obtain ⟨k', v'⟩ := hd
    by_cases hk : k' = k
    · simp [dictGet, hk] at h
    · simp only [dictGet, if_neg hk] at h
      simp [dictSet, dictValues, hk, ih h]

theorem mem_dictValues_dictSet {α : Type} (db : List (String × α)) (k : String) (v p : α)
    (h : p ∈ dictValues (dictSet db k v)) : p = v ∨ p ∈ dictValues db := by
  induction db with
  | nil =>
    simp only [dictSet, dictValues, List.mem_singleton] at h
    exact .inl h
  | cons hd tl ih =>
    obtain ⟨k', v'⟩ := hd
    by_cases hk : k' = k
    · simp only [dictSet, if_pos hk, dictValues] at h
      rcases List.mem_cons.1 h with h1 | h1
      · exact .inl h1
      · exact .inr (List.mem_cons_of_mem _ h1)
    · simp only [dictSet, if_neg hk, dictValues] at h
      rcases List.mem_cons.1 h with h1 | h1
      · exact .inr (h1 ▸ List.mem_cons_self _ _)
      · rcases ih h1 with h2 | h2
        · exact .inl h2
        · exact .inr (List.mem_cons_of_mem _ h2)

theorem mem_dictValues_dictDel {α : Type} (db : List (String × α)) (k : String) (p : α)
    (h : p ∈ dictValues (dictDel db k)) : p ∈ dictValues db := by
  induction db with
  | nil => exact h
  | cons hd tl ih =>
    obtain ⟨k', v'⟩ := hd
    by_cases hk : k' = k
    · simp only [dictDel, if_pos hk] at h
      exact List.mem_cons_of_mem _ h
    · simp only [dictDel, if_neg hk, dictValues] at h
      rcases List.mem_cons.1 h with h1 | h1
      · exact h1 ▸ List.mem_cons_self _ _
      · exact List.mem_cons_of_mem _ (ih h1)

theorem dictKeys_dictDel_sublist {α : Type} (db : List (String × α)) (k : String) :
    (dictKeys (dictDel db k)).Sublist (dictKeys db) := by
  induction db with
  | nil => simp [dictDel, dictKeys]
  | cons hd tl ih =>
    obtain ⟨k', v'⟩ := hd
    by_cases hk : k' = k
    · simp only [dictDel, if_pos hk, dictKeys]
      exact List.sublist_cons_self k' (dictKeys tl)
    · simpa [dictDel, dictKeys, hk] using ih.cons₂ k'

theorem mem_dictKeys_dictSet {α : Type} (db : List (String × α)) (k : String) (v : α)
    (k2 : String) (h : k2 ∈ dictKeys (dictSet db k v)) : k2 = k ∨ k2 ∈ dictKeys db := by
  cases hd : dictGet db k with
  | none =>
    rw [dictKeys_dictSet_absent db k v hd] at h
    rcases List.mem_append.1 h with h1 | h1
    · exact .inr h1
    · exact .inl (by simpa using h1)
  | some p =>
    rw [dictKeys_dictSet_present db k v p hd] at h
    exact .inr h

theorem dictGet_mem_dictValues {α : Type} (db : List (String × α)) (k : String) (v : α)
    (h : dictGet db k = some v) : v ∈ dictValues db := by
  induction db with
  | nil => simp [dictGet] at h
  | cons hd tl ih =>
    obtain ⟨k', v'⟩ := hd
    by_cases hk : k' = k
    · simp only [dictGet, if_pos hk, Option.some.injEq] at h
      exact h ▸ List.mem_cons_self _ _
    · simp only [dictGet, if_neg hk] at h
      exact List.mem_cons_of_mem _ (ih h)

/-! ## Validation and handler lemmas -/

theorem validateProduct_price_error (raw : RawProduct) (h : raw.price ≤ 0) :
    validateProduct raw = .error (productErrors raw) ∧ "price" ∈ productErrors raw := by
  have hp : "price" ∈ productErrors raw := by
    simp [productErrors, h]
  have hne : productErrors raw ≠ [] := by
    intro he
    rw [he] at hp
    exact absurd hp (List.not_mem_nil _)
  refine ⟨?_, hp⟩
  unfold validateProduct
  cases hc : parseCategory raw.category with
  | none => rfl
  | some cat => simp [hne]

theorem get_products_eq_filter (c : Option ProductCategory) (mn mx : Option ℚ)
    (st : Option Bool) (db : Store) :
    get_products c mn mx st db = (dictValues db).filter (matchesFilters c mn mx st) := by
  cases c <;> cases mn <;> cases mx <;> cases st <;>
    simp only [get_products, List.filter_filter] <;>
    first
    | exact (List.filter_eq_self.2 fun a _ => rfl).symm
    | (refine (List.filter_congr fun p _ => ?_).symm
       simp [matchesFilters, Bool.and_comm, Bool.and_left_comm, Bool.and_assoc])

theorem update_product_present (id : String) (now : Nat) (pu : ProductBase) (db : Store)
    (p : Product) (h : dictGet db id = some p) :
    update_product id now pu db =
      (.ok { toProductBase := pu, id := p.id, created_at := p.created_at, updated_at := now },
       dictSet db id { toProductBase := pu, id := p.id, created_at := p.created_at, updated_at := now }) := by
  simp [update_product, h]

theorem mem_dictValues_update_product (id : String) (now : Nat) (pu : ProductBase)
    (db : Store) (p : Product) (h : p ∈ dictValues (update_product id now pu db).2) :
    (∃ cur, dictGet db id = some cur ∧
        p = { toProductBase := pu, id := cur.id, created_at := cur.created_at, updated_at := now }) ∨
      p ∈ dictValues db := by
  cases hd : dictGet db id with
  | none =>
    simp only [update_product, hd] at h
    exact .inr h
  | some cur =>
    simp only [update_product, hd] at h
    rcases mem_dictValues_dictSet _ _ _ _ h with h1 | h1
    · exact .inl ⟨cur, rfl, h1⟩
    · exact .inr h1

theorem mem_dictValues_delete_product (id : String) (db : Store) (p : Product)
    (h : p ∈ dictValues (delete_product id db).2) : p ∈ dictValues db := by
  cases hd : dictGet db id with
  | none => simpa only [delete_product, hd] using h
  | some cur =>
    simp only [delete_product, hd] at h
    exact mem_dictValues_dictDel _ _ _ h

theorem dictKeys_update_product (id : String) (now : Nat) (pu : ProductBase) (db : Store) :
    dictKeys (update_product id now pu db).2 = dictKeys db := by
  cases hd : dictGet db id with
  | none => simp only [update_product, hd]
  | some cur =>
    simp only [update_product, hd]
    exact dictKeys_dictSet_present db id _ cur hd

theorem dictKeys_delete_product_sublist (id : String) (db : Store) :
    (dictKeys (delete_product id db).2).Sublist (dictKeys db) := by
  cases hd : dictGet db id with
  | none => simp only [delete_product, hd]; exact List.Sublist.refl _
  | some cur =>
    simp only [delete_product, hd]
    exact dictKeys_dictDel_sublist db id

/-! ## Trace invariants -/

theorem run_times_invariant (gen : Nat → String) :
    ∀ (ops : List Op) (s : ServerState) (t : Nat),
      monoFrom t ops = true →
      (∀ p ∈ dictValues s.db, p.created_at ≤ p.updated_at ∧ p.updated_at ≤ t) →
      ∀ p ∈ dictValues (run gen s ops).db, p.created_at ≤ p.updated_at := by
  intro ops
  induction ops with
  | nil => intro s t _ hinv p hp; exact (hinv p hp).1
  | cons op rest ih =>
    intro s t hmono hinv
    simp only [monoFrom, Bool.and_eq_true, decide_eq_true_eq] at hmono
    obtain ⟨ht, hrest⟩ := hmono
    have hstep : ∀ p ∈ dictValues (step gen s op).db,
        p.created_at ≤ p.updated_at ∧ p.updated_at ≤ op.time := by
      cases op with
      | create raw now =>
        cases hv : validateProduct raw with
        | error e =>
          intro p hp
          simp only [step, hv] at hp
          exact ⟨(hinv p hp).1, le_trans (hinv p hp).2 ht⟩
        | ok pb =>
          intro p hp
          simp only [step, hv, create_product] at hp
          rcases mem_dictValues_dictSet _ _ _ _ hp with h1 | h1
          · subst h1; exact ⟨le_refl _, le_refl _⟩
          · exact ⟨(hinv p h1).1, le_trans (hinv p h1).2 ht⟩
      | update id raw now =>
        cases hv : validateProduct raw with
        | error e =>
          intro p hp
          simp only [step, hv] at hp
          exact ⟨(hinv p hp).1, le_trans (hinv p hp).2 ht⟩
        | ok pb =>
          intro p hp
          simp only [step, hv] at hp
          rcases mem_dictValues_update_product _ _ _ _ _ hp with ⟨cur, hcur, h1⟩ | h1
          · subst h1
            have hc := hinv cur (dictGet_mem_dictValues _ _ _ hcur)
            exact ⟨le_trans hc.1 (le_trans hc.2 ht), le_refl _⟩
          · exact ⟨(hinv p h1).1, le_trans (hinv p h1).2 ht⟩
      | delete id now =>
        intro p hp
        simp only [step] at hp
        have h1 := mem_dictValues_delete_product _ _ _ hp
        exact ⟨(hinv p h1).1, le_trans (hinv p h1).2 ht⟩
    exact ih (step gen s op) op.time hrest hstep

theorem run_ids_invariant (gen : Nat → String) (hinj : Function.Injective gen) :
    ∀ (ops : List Op) (s : ServerState),
      (∀ k ∈ dictKeys s.db, ∃ i, i < s.nextId ∧ gen i = k) →
      (dictKeys s.db).Nodup →
      ((drawnIds gen s ops).Nodup ∧
       (∀ k ∈ drawnIds gen s ops, ∃ i, s.nextId ≤ i ∧ gen i = k) ∧
       (dictKeys (run gen s ops).db).Nodup) := by
  intro ops
  induction ops with
  | nil =>
    intro s hkeys hnd
    exact ⟨List.nodup_nil, by simp [drawnIds], hnd⟩
  | cons op rest ih =>
    intro s hkeys hnd
    have hrun : run gen s (op :: rest) = run gen (step gen s op) rest := rfl
    have hdrawn : drawnIds gen s (op :: rest) =
        drawnNow gen s op ++ drawnIds gen (step gen s op) rest := rfl
    cases op with
    | create raw now =>
      cases hv : validateProduct raw with
      | error e =>
        have hstep : step gen s (.create raw now) = s := by simp [step, hv]
        have hnow : drawnNow gen s (.create raw now) = [] := by simp [drawnNow, hv]
        obtain ⟨d1, d2, d3⟩ := ih s hkeys hnd
        rw [hdrawn, hrun, hstep, hnow, List.nil_append]
        exact ⟨d1, d2, d3⟩
      | ok pb =>
        have hfresh : gen s.nextId ∉ dictKeys s.db := by
          intro hmem
          obtain ⟨i, hi, hgi⟩ := hkeys _ hmem
          exact absurd (hinj hgi) (Nat.ne_of_lt hi)
        have hget : dictGet s.db (gen s.nextId) = none :=
          (dictGet_eq_none_iff s.db (gen s.nextId)).2 hfresh
        have hstep : step gen s (.create raw now) =
            ⟨dictSet s.db (gen s.nextId)
               { toProductBase := pb, id := gen s.nextId, created_at := now, updated_at := now },
             s.nextId + 1⟩ := by
          simp [step, hv, create_product]
        have hnow : drawnNow gen s (.create raw now) = [gen s.nextId] := by
          simp [drawnNow, hv]
        have hkeys' : ∀ k ∈ dictKeys (step gen s (.create raw now)).db,
            ∃ i, i < (step gen s (.create raw now)).nextId ∧ gen i = k := by
          rw [hstep]
          intro k hk
          rcases mem_dictKeys_dictSet _ _ _ _ hk with h1 | h1
          · exact ⟨s.nextId, Nat.lt_succ_self _, h1.symm⟩
          · obtain ⟨i, hi, hgi⟩ := hkeys _ h1
            exact ⟨i, Nat.lt_succ_of_lt hi, hgi⟩
        have hnd' : (dictKeys (step gen s (.create raw now)).db).Nodup := by
          rw [hstep]
          simp only [dictKeys_dictSet_absent s.db _ _ hget]
          simp [List.nodup_append, hnd, hfresh]
        obtain ⟨d1, d2, d3⟩ := ih (step gen s (.create raw now)) hkeys' hnd'
        rw [hdrawn, hrun, hnow]
        refine ⟨?_, ?_, d3⟩
        · rw [List.singleton_append, List.nodup_cons]
          refine ⟨fun hmem => ?_, d1⟩
          obtain ⟨i, hi, hgi⟩ := d2 _ hmem
          rw [hstep] at hi
          exact absurd (hinj hgi).symm (Nat.ne_of_lt (Nat.lt_of_succ_le hi))
        · intro k hk
          rcases List.mem_append.1 hk with h1 | h1
          · rw [List.mem_singleton] at h1
            exact ⟨s.nextId, le_refl _, h1.symm⟩
          · obtain ⟨i, hi, hgi⟩ := d2 _ h1
            rw [hstep] at hi
            exact ⟨i, le_trans (Nat.le_succ _) hi, hgi⟩
    | update id raw now =>
      have hnow : drawnNow gen s (.update id raw now) = [] := by simp [drawnNow]
      have hkeyseq : dictKeys (step gen s (.update id raw now)).db = dictKeys s.db := by
        cases hv : validateProduct raw with
        | error e => simp [step, hv]
        | ok pb => simp [step, hv, dictKeys_update_product]
      have hnexteq : (step gen s (.update id raw now)).nextId = s.nextId := by
        cases hv : validateProduct raw with
        | error e => simp [step, hv]
        | ok pb => simp [step, hv]
      obtain ⟨d1, d2, d3⟩ := ih (step gen s (.update id raw now))
        (by rw [hkeyseq, hnexteq]; exact hkeys) (by rw [hkeyseq]; exact hnd)
      rw [hdrawn, hrun, hnow, List.nil_append]
      refine ⟨d1, ?_, d3⟩
      intro k hk
      obtain ⟨i, hi, hgi⟩ := d2 _ hk
      rw [hnexteq] at hi
      exact ⟨i, hi, hgi⟩
    | delete id now =>
      have hnow : drawnNow gen s (.delete id now) = [] := by simp [drawnNow]
      have hsub : (dictKeys (step gen s (.delete id now)).db).Sublist (dictKeys s.db) := by
        simp only [step]
        exact dictKeys_delete_product_sublist id s.db
      have hnexteq : (step gen s (.delete id now)).nextId = s.nextId := rfl
      obtain ⟨d1, d2, d3⟩ := ih (step gen s (.delete id now))
        (by
          intro k hk
          rw [hnexteq]
          exact hkeys _ (hsub.subset hk))
        (hnd.sublist hsub)
      rw [hdrawn, hrun, hnow, List.nil_append]
      refine ⟨d1, ?_, d3⟩
      intro k hk
      obtain ⟨i, hi, hgi⟩ := d2 _ hk
      rw [hnexteq] at hi
      exact ⟨i, hi, hgi⟩

/-! ## Claims -/

/-- C1: For every store state and every combination of the optional filters
(category, min_price, max_price, in_stock), GET /products returns exactly the
records satisfying all supplied filter predicates simultaneously (category
equality, price ≥ min_price, price ≤ max_price, in_stock equality); an absent
filter constrains nothing, and with no filters supplied it returns every
record in the collection. -/
theorem list_filters_conjunctive :
    (∀ (c : Option ProductCategory) (mn mx : Option ℚ) (st : Option Bool) (db : Store),
        get_products c mn mx st db = (dictValues db).filter (matchesFilters c mn mx st)) ∧
    (∀ db : Store, get_products none none none none db = dictValues db) :=
  ⟨get_products_eq_filter, fun _ => rfl⟩

/-- C2: For every product id present in the store and every validated
full-replacement body, Update replaces every user-supplied field of the
stored record with the body's fields, sets updated_at to the current time,
leaves id and created_at unchanged, leaves every other record in the store
unchanged, and returns the updated record (which is also the stored one). -/
theorem update_full_replace (product_id : String) (now : Nat) (pu : ProductBase)
    (db : Store) (p : Product) (h : dictGet db product_id = some p) :
    ∃ q : Product,
      (update_product product_id now pu db).1 = .ok q ∧
      q.toProductBase = pu ∧ q.id = p.id ∧ q.created_at = p.created_at ∧
      q.updated_at = now ∧
      dictGet (update_product product_id now pu db).2 product_id = some q ∧
      ∀ k, k ≠ product_id →
        dictGet (update_product product_id now pu db).2 k = dictGet db k := by
  refine ⟨{ toProductBase := pu, id := p.id, created_at := p.created_at, updated_at := now },
    ?_, rfl, rfl, rfl, rfl, ?_, ?_⟩
  · rw [update_product_present _ _ _ _ _ h]
  · rw [update_product_present _ _ _ _ _ h]
    exact dictGet_dictSet_self _ _ _
  · intro k hk
    rw [update_product_present _ _ _ _ _ h]
    exact dictGet_dictSet_ne _ _ _ _ hk

/-- Witness for C2 at a concrete store, id and body. -/
theorem update_full_replace_witness :
    ∃ q : Product,
      (update_product "a" 3 pbSample2 storeSample).1 = .ok q ∧
      q.toProductBase = pbSample2 ∧ q.id = prodSample.id ∧
      q.created_at = prodSample.created_at ∧ q.updated_at = 3 ∧
      dictGet (update_product "a" 3 pbSample2 storeSample).2 "a" = some q ∧
      ∀ k, k ≠ "a" →
        dictGet (update_product "a" 3 pbSample2 storeSample).2 k = dictGet storeSample k :=
  update_full_replace "a" 3 pbSample2 storeSample prodSample rfl

/-- C3 counterexample: PUT on the identifier "missing" over the empty store
with a body whose price is 0 yields the 422 validation error naming price,
not a 404 not-found: FastAPI validates the body before the handler's
existence check runs, so the claim's "regardless of the supplied Update
body" fails. -/
theorem update_missing_id_validation_first :
    (put_product_endpoint "missing" 5 rawBadPrice []).1 =
        .error (.validationError ["price"]) ∧
    (put_product_endpoint "missing" 5 rawBadPrice []).1 ≠
        .error (.notFound "Product not found" 404) := by
  refine ⟨rfl, fun h => ?_⟩
  rw [show (put_product_endpoint "missing" 5 rawBadPrice []).1 =
      Except.error (ApiError.validationError ["price"]) from rfl] at h
  simp at h

/-- C3 (amended): For every identifier not present in the product store, Get
and Delete fail with the 404 not-found error carrying the error/code body;
Update fails with the same 404 not-found whenever its body passes schema
validation, while a body failing validation yields the 422 validation error
before the existence check, regardless of the identifier; the two error
kinds remain distinguishable by status code. -/
theorem missing_id_not_found :
    (∀ id (db : Store), dictGet db id = none →
        get_product id db = .error (.notFound "Product not found" 404)) ∧
    (∀ id (db : Store), dictGet db id = none →
        delete_product id db = (.error (.notFound "Product not found" 404), db)) ∧
    (∀ id now raw pb (db : Store), validateProduct raw = .ok pb →
        dictGet db id = none →
        put_product_endpoint id now raw db =
          (.error (.notFound "Product not found" 404), db)) ∧
    (∀ id now raw errs (db : Store), validateProduct raw = .error errs →
        put_product_endpoint id now raw db = (.error (.validationError errs), db)) ∧
    (∀ e c ds, (ApiError.notFound e c).statusCode ≠ (ApiError.validationError ds).statusCode) := by
  refine ⟨?_, ?_, ?_, ?_, ?_⟩
  · intro id db h
    simp [get_product, h]
  · intro id db h
    simp [delete_product, h]
  · intro id now raw pb db hv h
    simp [put_product_endpoint, hv, update_product, h]
  · intro id now raw errs db hv
    simp [put_product_endpoint, hv]
  · intro e c ds
    simp [ApiError.statusCode]

/-- Witness for C3 (amended) at concrete identifiers, stores and bodies. -/
theorem missing_id_not_found_witness :
    get_product "missing" [] = .error (.notFound "Product not found" 404) ∧
    delete_product "missing" [] = (.error (.notFound "Product not found" 404), ([] : Store)) ∧
    put_product_endpoint "missing" 5 rawSample [] =
      (.error (.notFound "Product not found" 404), ([] : Store)) ∧
    put_product_endpoint "missing" 5 rawBadPrice [] =
      (.error (.validationError ["price"]), ([] : Store)) :=
  ⟨missing_id_not_found.1 "missing" [] rfl,
   missing_id_not_found.2.1 "missing" [] rfl,
   missing_id_not_found.2.2.1 "missing" 5 rawSample pbSample [] rfl rfl,
   missing_id_not_found.2.2.2.1 "missing" 5 rawBadPrice ["price"] [] rfl⟩

/-- C4: For every create input, the record returned by Create is exactly the
record a subsequent Get on the identifier contained in the Create response
returns, with no intervening mutation. -/
theorem create_get_roundtrip (fresh : String) (now : Nat) (pb : ProductBase) (db : Store) :
    get_product (create_product fresh now pb db).1.id (create_product fresh now pb db).2 =
      .ok (create_product fresh now pb db).1 := by
  simp only [create_product, get_product]
  rw [dictGet_dictSet_self]

/-- C5: Immediately after Create the record satisfies created_at = updated_at;
a successful Update preserves created_at and sets updated_at to the request
time (hence to a time no earlier than before under a monotone clock); and
along every request trace with nondecreasing times from the empty server,
every stored record satisfies created_at ≤ updated_at. -/
theorem timestamp_invariants :
    (∀ fresh now pb (db : Store),
        (create_product fresh now pb db).1.created_at =
          (create_product fresh now pb db).1.updated_at) ∧
    (∀ id now pu (db : Store) p, dictGet db id = some p →
        ∃ q, (update_product id now pu db).1 = .ok q ∧
          q.created_at = p.created_at ∧ q.updated_at = now ∧
          (p.updated_at ≤ now → p.updated_at ≤ q.updated_at)) ∧
    (∀ gen ops, monoFrom 0 ops = true →
        timesConsistent (run gen initState ops).db = true) := by
  refine ⟨fun fresh now pb db => rfl, ?_, ?_⟩
  · intro id now pu db p h
    refine ⟨{ toProductBase := pu, id := p.id, created_at := p.created_at,
              updated_at := now }, ?_, rfl, rfl, fun hle => hle⟩
    rw [update_product_present _ _ _ _ _ h]
  · intro gen ops hm
    have hbase : ∀ p ∈ dictValues (initState.db),
        p.created_at ≤ p.updated_at ∧ p.updated_at ≤ 0 := by
      intro p hp
      simp [initState, dictValues] at hp
    have hrun := run_times_invariant gen ops initState 0 hm hbase
    unfold timesConsistent
    rw [List.all_eq_true]
    intro p hp
    exact decide_eq_true (hrun p hp)

/-- Witness for C5 at a concrete update and a concrete monotone trace. -/
theorem timestamp_invariants_witness :
    (∃ q, (update_product "a" 3 pbSample2 storeSample).1 = .ok q ∧
        q.created_at = prodSample.created_at ∧ q.updated_at = 3 ∧
        (prodSample.updated_at ≤ 3 → prodSample.updated_at ≤ q.updated_at)) ∧
    timesConsistent (run genSample initState opsSample).db = true :=
  ⟨timestamp_invariants.2.1 "a" 3 pbSample2 storeSample prodSample rfl,
   timestamp_invariants.2.2 genSample opsSample rfl⟩

/-- C6: Every create body whose price is ≤ 0 is rejected by validation with a
422 validation error naming the price field, and no record is inserted: the
endpoint returns the untouched store and the server state is unchanged. -/
theorem price_nonpositive_rejected (raw : RawProduct) (h : raw.price ≤ 0) :
    ∃ errs, validateProduct raw = .error errs ∧ "price" ∈ errs ∧
      (∀ fresh now (db : Store),
          post_product_endpoint fresh now raw db = (.error (.validationError errs), db)) ∧
      (∀ gen s now, step gen s (.create raw now) = s) := by
  obtain ⟨hv, hp⟩ := validateProduct_price_error raw h
  refine ⟨productErrors raw, hv, hp, ?_, ?_⟩
  · intro fresh now db
    simp [post_product_endpoint, hv]
  · intro gen s now
    simp [step, hv]

/-- Witness for C6 at the concrete body with price 0. -/
theorem price_nonpositive_rejected_witness :
    ∃ errs, validateProduct rawBadPrice = .error errs ∧ "price" ∈ errs ∧
      (∀ fresh now (db : Store),
          post_product_endpoint fresh now rawBadPrice db =
            (.error (.validationError errs), db)) ∧
      (∀ gen s now, step gen s (.create rawBadPrice now) = s) :=
  price_nonpositive_rejected rawBadPrice (le_refl 0)

/-- C7: Every mutating endpoint (product create, product update, task create)
validates its body before touching the store: when validation fails the
endpoint returns the 422 validation error and the store — indeed the whole
server state — is exactly as before the call. -/
theorem validation_atomic :
    (∀ fresh now raw errs (db : Store), validateProduct raw = .error errs →
        post_product_endpoint fresh now raw db = (.error (.validationError errs), db)) ∧
    (∀ id now raw errs (db : Store), validateProduct raw = .error errs →
        put_product_endpoint id now raw db = (.error (.validationError errs), db)) ∧
    (∀ fresh raw errs (db : TaskStore), validateTask raw = .error errs →
        post_task_endpoint fresh raw db = (.error (.validationError errs), db)) ∧
    (∀ gen s raw now errs, validateProduct raw = .error errs →
        step gen s (.create raw now) = s ∧ ∀ id, step gen s (.update id raw now) = s) := by
  refine ⟨?_, ?_, ?_, ?_⟩
  · intro fresh now raw errs db hv
    simp [post_product_endpoint, hv]
  · intro id now raw errs db hv
    simp [put_product_endpoint, hv]
  · intro fresh raw errs db hv
    simp [post_task_endpoint, hv]
  · intro gen s raw now errs hv
    exact ⟨by simp [step, hv], fun id => by simp [step, hv]⟩

/-- Witness for C7 at concrete invalid product and task bodies. -/
theorem validation_atomic_witness :
    post_product_endpoint "a" 1 rawBadPrice [] =
      (.error (.validationError ["price"]), ([] : Store)) ∧
    put_product_endpoint "a" 1 rawBadPrice storeSample =
      (.error (.validationError ["price"]), storeSample) ∧
    post_task_endpoint "t" rawBadTask [] =
      (.error (.validationError ["title"]), ([] : TaskStore)) ∧
    (step genSample initState (.create rawBadPrice 1) = initState ∧
      ∀ id, step genSample initState (.update id rawBadPrice 1) = initState) :=
  ⟨validation_atomic.1 "a" 1 rawBadPrice ["price"] [] rfl,
   validation_atomic.2.1 "a" 1 rawBadPrice ["price"] storeSample rfl,
   validation_atomic.2.2.1 "t" rawBadTask ["title"] [] rfl,
   validation_atomic.2.2.2 genSample initState rawBadPrice 1 ["price"] rfl⟩

/-- C8: Under the identity generator's contract that distinct draws are
distinct strings (uuid4 collision-freedom), along every request trace from
the empty server the identifiers drawn by successful creates are pairwise
distinct — each returned identifier differs from every previously created
one and is never reused after a deletion — and the keys of the live records
never contain a duplicate. -/
theorem identifiers_unique (gen : Nat → String) (hinj : Function.Injective gen)
    (ops : List Op) :
    (drawnIds gen initState ops).Nodup ∧
    (dictKeys (run gen initState ops).db).Nodup := by
  obtain ⟨d1, d2, d3⟩ := run_ids_invariant gen hinj ops initState
    (by intro k hk; simp [initState, dictKeys] at hk)
    (by simp [initState, dictKeys])
  exact ⟨d1, d3⟩

/-- Witness for C8 with a concrete injective supply and a concrete trace. -/
theorem identifiers_unique_witness :
    (drawnIds genSample initState opsSample).Nodup ∧
    (dictKeys (run genSample initState opsSample).db).Nodup :=
  identifiers_unique genSample
    (fun a b h => by
      have h2 := congrArg (fun s => s.data.length) h
      have h3 : a + 1 = b + 1 := by simpa [genSample] using h2
      omega)
    opsSample

/-- C9: The product id path parameter is a plain unvalidated string: for any
string whatsoever, Get and Delete never fail with a validation error on the
id (an absent id yields the 404 not-found error, a present one succeeds),
Update with a schema-valid body likewise never yields a validation error, and
in particular a non-UUID string like "not-a-uuid" yields 404, not the
documented invalid-uuid-format 422. -/
theorem id_plain_string_not_found :
    (∀ id (db : Store), dictGet db id = none →
        get_product id db = .error (.notFound "Product not found" 404) ∧
        delete_product id db = (.error (.notFound "Product not found" 404), db)) ∧
    (∀ id (db : Store) errs, get_product id db ≠ .error (.validationError errs)) ∧
    (∀ id (db : Store) errs, (delete_product id db).1 ≠ .error (.validationError errs)) ∧
    (∀ id now raw pb (db : Store) errs, validateProduct raw = .ok pb →
        (put_product_endpoint id now raw db).1 ≠ .error (.validationError errs)) ∧
    get_product "not-a-uuid" [] = .error (.notFound "Product not found" 404) := by
  refine ⟨?_, ?_, ?_, ?_, rfl⟩
  · intro id db h
    exact ⟨by simp [get_product, h], by simp [delete_product, h]⟩
  · intro id db errs h
    unfold get_product at h
    cases hd : dictGet db id <;> rw [hd] at h <;> simp at h
  · intro id db errs h
    unfold delete_product at h
    cases hd : dictGet db id <;> rw [hd] at h <;> simp at h
  · intro id now raw pb db errs hv h
    simp only [put_product_endpoint, hv] at h
    unfold update_product at h
    cases hd : dictGet db id <;> rw [hd] at h <;> simp at h

/-- Witness for C9 at a concrete non-UUID identifier. -/
theorem id_plain_string_not_found_witness :
    (get_product "not-a-uuid" [] = .error (.notFound "Product not found" 404) ∧
     delete_product "not-a-uuid" [] =
       (.error (.notFound "Product not found" 404), ([] : Store))) ∧
    (put_product_endpoint "not-a-uuid" 1 rawSample storeSample).1 ≠
      .error (.validationError ["price"]) :=
  ⟨id_plain_string_not_found.1 "not-a-uuid" [] rfl,
   id_plain_string_not_found.2.2.2.1 "not-a-uuid" 1 rawSample pbSample storeSample
     ["price"] rfl⟩

/-- C10: GET /products returns records in store insertion order — with no
filters it is exactly the values list of the insertion-ordered store, a
create with a fresh id appends its record at the end, and an update keeps
the key order unchanged — and for every choice of filters the result is a
sublist (order-preserving, duplication-free selection) of the unfiltered
result: filters only remove records. -/
theorem list_insertion_order :
    (∀ c mn mx st (db : Store), (get_products c mn mx st db).Sublist (dictValues db)) ∧
    (∀ db : Store, get_products none none none none db = dictValues db) ∧
    (∀ fresh now pb (db : Store), dictGet db fresh = none →
        dictValues (create_product fresh now pb db).2 =
          dictValues db ++ [(create_product fresh now pb db).1]) ∧
    (∀ id now pu (db : Store), dictKeys (update_product id now pu db).2 = dictKeys db) := by
  refine ⟨?_, fun _ => rfl, ?_, ?_⟩
  · intro c mn mx st db
    rw [get_products_eq_filter]
    exact List.filter_sublist _
  · intro fresh now pb db h
    simp only [create_product]
    exact dictValues_dictSet_absent db fresh _ h
  · intro id now pu db
    exact dictKeys_update_product id now pu db

/-- Witness for C10 at a concrete fresh create over a one-record store. -/
theorem list_insertion_order_witness :
    dictValues (create_product "b" 9 pbSample storeSample).2 =
      dictValues storeSample ++ [(create_product "b" 9 pbSample storeSample).1] :=
  list_insertion_order.2.2.1 "b" 9 pbSample storeSample rfl

end PerfectApi
